import Mathlib

/- Shallow embedding of the rvnewop RISC-V decoder core:
   src/rvnewop/RV32.py and src/rvnewop/RVInstruction.py.
   Bit strings of 0/1 characters manipulated by the source are represented as
   List Bool, most significant bit first, the character 1 becoming true. -/

/-- Error outcomes of the embedded code.  The constructors valueError, keyError
and indexError stand for the Python builtin exceptions the source can raise.
The constructors malformedHexError and unsupportedOpcodeError are the error
kinds named by the specification (section 7); the source itself never
constructs them, they exist here only so that theorems can compare the two. -/
inductive RVError where
  | valueError
  | keyError
  | indexError
  | malformedHexError
  | unsupportedOpcodeError
  deriving DecidableEq, Repr

/-- Value of a list of decimal digit characters, read left to right. -/
def decDigitsVal (l : List Char) : Nat :=
  l.foldl (fun a c => 10 * a + (c.toNat - '0'.toNat)) 0

/-- Embedding of the Python builtin int(s) on decimal text: an optional sign
followed by decimal digits.  Returns none where Python raises ValueError.
Underscore separators and surrounding whitespace, which Python also accepts,
are not modelled; no register id in this development uses them. -/
def pyIntDec? (s : String) : Option Int :=
  match s.data with
  | [] => none
  | c :: ds =>
    if c = '-' then
      if ds ≠ [] ∧ ds.all Char.isDigit then some (-(decDigitsVal ds : Int)) else none
    else if c = '+' then
      if ds ≠ [] ∧ ds.all Char.isDigit then some ((decDigitsVal ds : Int)) else none
    else
      if (c :: ds).all Char.isDigit then some ((decDigitsVal (c :: ds) : Int)) else none

/-- Value of one hexadecimal digit character, none for any other character. -/
def hexDigitVal? (c : Char) : Option Nat :=
  if '0' ≤ c ∧ c ≤ '9' then some (c.toNat - '0'.toNat)
  else if 'a' ≤ c ∧ c ≤ 'f' then some (c.toNat - 'a'.toNat + 10)
  else if 'A' ≤ c ∧ c ≤ 'F' then some (c.toNat - 'A'.toNat + 10)
  else none

/-- Value of a nonempty list of hexadecimal digit characters, none when any
character is not a hexadecimal digit. -/
def hexDigitsVal? (l : List Char) : Option Nat :=
  match l with
  | [] => none
  | _ =>
    l.foldl
      (fun a c =>
        match a, hexDigitVal? c with
        | some x, some d => some (16 * x + d)
        | _, _ => none)
      (some 0)

/-- Embedding of the Python builtin int(s, 16) as called by RV32.decodeHex: an
optional 0x or 0X base marker followed by hexadecimal digits.  Returns none
where Python raises ValueError.  Signs, underscores and surrounding
whitespace, which Python also accepts, are not modelled. -/
def pyIntHex16? (s : String) : Option Nat :=
  match s.data with
  | '0' :: 'x' :: rest => hexDigitsVal? rest
  | '0' :: 'X' :: rest => hexDigitsVal? rest
  | l => hexDigitsVal? l

/-- Minimal binary representation of n, most significant bit first, empty for
zero; the recursive core of the Python expression bin(n)[2:]. -/
def natBits (n : Nat) : List Bool :=
  if h : n = 0 then [] else natBits (n / 2) ++ [decide (n % 2 = 1)]
  decreasing_by exact Nat.div_lt_self (Nat.pos_of_ne_zero h) one_lt_two

/-- Embedding of bin(n)[2:] for the nonnegative n decodeHex produces: Python
prints 0 as the single character 0. -/
def rawBin (n : Nat) : List Bool :=
  if n = 0 then [false] else natBits n

/-- Embedding of the Python slice s[-n:]: the last n elements, or the whole
list when it is shorter than n. -/
def lastN {α : Type} (n : Nat) (l : List α) : List α :=
  l.drop (l.length - n)

/-- Embedding of str.zfill on binary text: left pad with zero bits up to the
given width, a no-op on longer input. -/
def zfillBits (width : Nat) (l : List Bool) : List Bool :=
  List.replicate (width - l.length) false ++ l

/-- Embedding of the RVInstruction value built by RVInstruction.__init__: the
Python None defaults become the field defaults.  The binary attribute holds
the bit sequence of the original encoding; immediates are Python ints. -/
structure RVInstruction where
  format : String := ""
  src_registers : List String := []
  dest_registers : List String := []
  immediates : List Int := []
  mask : List String := []
  name : String := ""
  size : Nat := 0
  binary : List Bool := []
  freq : Nat := 0
  deriving DecidableEq, Repr

/-- Embedding of RVInstruction.get_print_name.  Returns none where the Python
code raises: on the empty string (register_name[0] raises IndexError) and on
an x-prefixed string whose remainder int() rejects (ValueError). -/
def get_print_name (register_name : String) : Option String :=
  match register_name.data with
  | [] => none
  | c :: rest =>
    if c = 'x' then
      match pyIntDec? (String.mk rest) with
      | none => none
      | some xval =>
        if register_name = "x0" then some "zero"
        else if register_name = "x1" then some "ra"
        else if register_name = "x2" then some "sp"
        else if register_name = "x3" then some "gp"
        else if register_name = "x4" then some "tp"
        else if register_name = "x5" then some "t0"
        else if register_name = "x6" then some "t1"
        else if register_name = "x7" then some "t2"
        else if register_name = "x8" then some "s0"
        else if register_name = "x9" then some "s1"
        else if 10 ≤ xval ∧ xval ≤ 17 then some ("a" ++ toString (xval - 10))
        else if 12 ≤ xval ∧ xval ≤ 27 then some ("s" ++ toString (xval - 16))
        else if 28 ≤ xval ∧ xval ≤ 31 then some ("t" ++ toString (xval - 25))
        else some register_name
    else some register_name

/-- Embedding of RVInstruction.isJump. -/
def RVInstruction.isJump (i : RVInstruction) : Bool :=
  ["j", "jal", "jalr", "jr", "c.j", "c.jal", "c.jalr", "c.jr"].contains i.name

/-- Embedding of RVInstruction.isJumpPCRelative. -/
def RVInstruction.isJumpPCRelative (i : RVInstruction) : Bool :=
  ["j", "jal", "c.j", "c.jal"].contains i.name

/-- Embedding of RVInstruction.isBranch. -/
def RVInstruction.isBranch (i : RVInstruction) : Bool :=
  ["beq", "bne", "blt", "bltu", "bge", "bgeu", "beqz", "bnez", "blez", "bgez",
    "bltz", "bgtz", "bgt", "ble", "bgtu", "bleu", "c.beqz", "c.bnez"].contains i.name

/-- Embedding of RVInstruction.isControlTransfer. -/
def RVInstruction.isControlTransfer (i : RVInstruction) : Bool :=
  i.isJump || i.isBranch

/-- Embedding of RVInstruction.isControlTransferPCRelative. -/
def RVInstruction.isControlTransferPCRelative (i : RVInstruction) : Bool :=
  i.isJumpPCRelative || i.isBranch

/-- Embedding of RVInstruction.isLoad. -/
def RVInstruction.isLoad (i : RVInstruction) : Bool :=
  ["c.fld", "c.lq", "c.lw", "c.flw", "c.ld", "c.fldsp", "c.lwsp", "c.flwsp",
    "c.ldsp", "lb", "lh", "lw", "lbu", "lhu", "ld", "lwu"].contains i.name

/-- Embedding of RVInstruction.isStore. -/
def RVInstruction.isStore (i : RVInstruction) : Bool :=
  ["c.fsd", "c.sq", "c.sw", "c.fsw", "c.sd", "c.fsdsp", "c.swsp", "c.fswsp",
    "c.sdsp", "sb", "sh", "sw", "sd"].contains i.name

/-- Embedding of RVInstruction.isMemAccess. -/
def RVInstruction.isMemAccess (i : RVInstruction) : Bool :=
  i.isLoad || i.isStore

/-- Embedding of the Python expression given by joining a list with commas. -/
def commaJoin : List String → String
  | [] => ""
  | [x] => x
  | x :: xs => x ++ "," ++ commaJoin xs

/-- Character level core of str.strip: drop leading and trailing spaces.  The
only whitespace character the rendered strings can contain is the space. -/
def stripChars (l : List Char) : List Char :=
  ((l.dropWhile (fun c => c == ' ')).reverse.dropWhile (fun c => c == ' ')).reverse

/-- Embedding of str.strip as used by RVInstruction.__str__. -/
def pyStrip (s : String) : String :=
  String.mk (stripChars s.data)

/-- The literal mnemonic list tested by RVInstruction.__str__ to choose the
offset(base) layout. -/
def strSpecialNames : List String :=
  ["lb", "lh", "lw", "lbu", "lhu", "sb", "sh", "sw", "c.lw", "c.sw",
    "c.lwsp", "c.swsp", "jalr"]

/-- Embedding of RVInstruction.__str__.  Returns none where Python raises: a
register name whose int() parse fails, or indexing src[0] on an empty printed
source list.  The Python None guards on the attribute lists are dead code
because __init__ never stores None; they are omitted. -/
def RVInstruction.str (i : RVInstruction) : Option String :=
  match i.dest_registers.mapM get_print_name with
  | none => none
  | some dest =>
    match i.src_registers.mapM get_print_name with
    | none => none
    | some src =>
      let imm := i.immediates.map (fun x => toString x)
      let mask := i.mask
      if strSpecialNames.contains i.name then
        if (["c.lwsp", "c.swsp"] : List String).contains i.name then
          some (pyStrip (i.name ++ " " ++ commaJoin (dest ++ src ++ imm ++ mask) ++ "(" ++ "sp" ++ ")"))
        else
          match src with
          | [] => none
          | base :: srcTail =>
            some (pyStrip (i.name ++ " " ++ commaJoin (dest ++ srcTail ++ imm ++ mask) ++ "(" ++ base ++ ")"))
      else
        some (pyStrip (i.name ++ " " ++ commaJoin (dest ++ src ++ imm ++ mask)))

/-- Modelled from the spec: RVFormatParser.getOpcode is not under src.
Specification section 4.2: the opcode key is the lowest 7 bits for a 32 bit
sequence and the 2 bit quadrant, the lowest 2 bits, for a compressed one. -/
def getOpcode (ba : List Bool) : List Bool :=
  if ba.length = 32 then lastN 7 ba else lastN 2 ba

/-- Association list standing for the Python dict self.instructionTable; the
lookup embeds dict indexing. -/
def tableLookup (t : List (List Bool × (List Bool → RVInstruction))) (k : List Bool) :
    Option (List Bool → RVInstruction) :=
  match t with
  | [] => none
  | (k2, f) :: rest => if k2 = k then some f else tableLookup rest k

/-- Embedding of the RV32 decoder configuration: the merged instruction table
and name set built by RV32.__init__. -/
structure RV32 where
  instructionTable : List (List Bool × (List Bool → RVInstruction)) := []
  instructionNameSet : List String := []

/-- Embedding of RV32.decode: a plain Python dict indexing, which raises
KeyError when the opcode key has no entry. -/
def RV32.decode (rv : RV32) (ba : List Bool) : Except RVError RVInstruction :=
  match tableLookup rv.instructionTable (getOpcode ba) with
  | some f => Except.ok (f ba)
  | none => Except.error RVError.keyError

/-- The width selected by RV32.decodeHex, its local variable size: 16 unless
the raw binary text ends in two one bits. -/
def decodeHexWidth (n : Nat) : Nat :=
  if lastN 2 (rawBin n) ≠ [true, true] then 16 else 32

/-- Embedding of RV32.decodeHex: parse the hexadecimal text, detect the width
from the last two raw bits, left pad to the width and decode. -/
def RV32.decodeHex (rv : RV32) (hex : String) : Except RVError RVInstruction :=
  match pyIntHex16? hex with
  | none => Except.error RVError.valueError
  | some n => rv.decode (zfillBits (decodeHexWidth n) (rawBin n))

/-- Modelled from the spec: the extension decode functions (the I32, M32, V32
and C32 tables) are not under src.  Specification sections 3 and 4.3: every
decode function returns an Instruction whose binary is the original bit
sequence and whose size is its bit width. -/
def TableContract (t : List (List Bool × (List Bool → RVInstruction))) : Prop :=
  ∀ k f, (k, f) ∈ t → ∀ ba, (f ba).size = ba.length ∧ (f ba).binary = ba

/-- Decode function used by the concrete model tables below: it records the
bit sequence and its width, as the spec contract for decode functions asks. -/
def fW : List Bool → RVInstruction :=
  fun ba => { name := "unknown", size := ba.length, binary := ba }

/-- Modelled from the spec: a decoder configuration whose table carries the
single compressed quadrant key 00. -/
def rvW : RV32 :=
  { instructionTable := [([false, false], fW)], instructionNameSet := [] }

/-- The 16 bit all-zero word. -/
def ba16W : List Bool := List.replicate 16 false

/-- The instruction the model decoder produces for the 16 bit all-zero word. -/
def instW : RVInstruction := fW ba16W

/-- Modelled from the spec: a stand-in for a decoder built with only 32I.  Its
table carries the base integer opcode 0010011 (OP-IMM); the vector opcode
1010111 has no entry, exactly as in the real I32 table. -/
def rv32I : RV32 :=
  { instructionTable := [([false, false, true, false, false, true, true], fW)],
    instructionNameSet := ["addi"] }

/-- A 32 bit word carrying the vector extension opcode 1010111 in its lowest
seven bits. -/
def vecBa : List Bool :=
  List.replicate 25 false ++ [true, false, true, false, true, true, true]

/- Helper lemmas. -/

lemma tableLookup_mem {t : List (List Bool × (List Bool → RVInstruction))} {k : List Bool}
    {f : List Bool → RVInstruction} (h : tableLookup t k = some f) : (k, f) ∈ t := by
  induction t with
  | nil => simp [tableLookup] at h
  | cons hd tl ih =>
    obtain ⟨k2, g⟩ := hd
    unfold tableLookup at h
    by_cases hk : k2 = k
    · rw [if_pos hk] at h
      injection h with h2
      subst hk
      subst h2
      exact List.mem_cons_self _ _
    · rw [if_neg hk] at h
      exact List.mem_cons_of_mem _ (ih h)

lemma rvW_contract : TableContract rvW.instructionTable := by
  intro k f hmem ba
  simp only [rvW, List.mem_singleton, Prod.mk.injEq] at hmem
  obtain ⟨rfl, rfl⟩ := hmem
  exact ⟨rfl, rfl⟩

/-- Claim C3: get_print_name maps every register id x0 to x31 to its official
RISC-V ABI name: x0 to zero, x1 to ra, x2 to sp, x3 to gp, x4 to tp, x5 to x7
to t0 to t2, x8 to s0, x9 to s1, x10 to x17 to a0 to a7, x18 to x27 to s2 to
s11, and x28 to x31 to t3 to t6. -/
theorem get_print_name_abi_complete :
    get_print_name "x0" = some "zero" ∧ get_print_name "x1" = some "ra" ∧
    get_print_name "x2" = some "sp" ∧ get_print_name "x3" = some "gp" ∧
    get_print_name "x4" = some "tp" ∧ get_print_name "x5" = some "t0" ∧
    get_print_name "x6" = some "t1" ∧ get_print_name "x7" = some "t2" ∧
    get_print_name "x8" = some "s0" ∧ get_print_name "x9" = some "s1" ∧
    get_print_name "x10" = some "a0" ∧ get_print_name "x11" = some "a1" ∧
    get_print_name "x12" = some "a2" ∧ get_print_name "x13" = some "a3" ∧
    get_print_name "x14" = some "a4" ∧ get_print_name "x15" = some "a5" ∧
    get_print_name "x16" = some "a6" ∧ get_print_name "x17" = some "a7" ∧
    get_print_name "x18" = some "s2" ∧ get_print_name "x19" = some "s3" ∧
    get_print_name "x20" = some "s4" ∧ get_print_name "x21" = some "s5" ∧
    get_print_name "x22" = some "s6" ∧ get_print_name "x23" = some "s7" ∧
    get_print_name "x24" = some "s8" ∧ get_print_name "x25" = some "s9" ∧
    get_print_name "x26" = some "s10" ∧ get_print_name "x27" = some "s11" ∧
    get_print_name "x28" = some "t3" ∧ get_print_name "x29" = some "t4" ∧
    get_print_name "x30" = some "t5" ∧ get_print_name "x31" = some "t6" := by
  decide

/-- Claim C7: every Instruction named beq satisfies isBranch and
isControlTransfer and does not satisfy isJump. -/
theorem beq_classification (i : RVInstruction) (h : i.name = "beq") :
    i.isBranch = true ∧ i.isControlTransfer = true ∧ i.isJump = false := by
  simp only [RVInstruction.isBranch, RVInstruction.isControlTransfer,
    RVInstruction.isJump, h]
  decide

theorem beq_classification_witness :
    ({ name := "beq" } : RVInstruction).name = "beq" ∧
      (({ name := "beq" } : RVInstruction).isBranch = true ∧
        ({ name := "beq" } : RVInstruction).isControlTransfer = true ∧
        ({ name := "beq" } : RVInstruction).isJump = false) :=
  ⟨rfl, beq_classification { name := "beq" } rfl⟩

/-- Claim C2, amended: when the opcode key of a bit sequence has no entry in
the configured instruction table, decode fails with the Python builtin
KeyError raised by the dict lookup, and in particular not with the
UnsupportedOpcodeError the specification names, which the code never defines
nor raises. -/
theorem decode_missing_key_raises_keyError (rv : RV32) (ba : List Bool)
    (h : tableLookup rv.instructionTable (getOpcode ba) = none) :
    rv.decode ba = Except.error RVError.keyError ∧
      rv.decode ba ≠ Except.error RVError.unsupportedOpcodeError := by
  have h1 : rv.decode ba = Except.error RVError.keyError := by
    unfold RV32.decode
    rw [h]
  refine ⟨h1, ?_⟩
  rw [h1]
  intro hco
  injection hco with h2
  exact RVError.noConfusion h2

theorem decode_missing_key_witness :
    tableLookup rv32I.instructionTable (getOpcode vecBa) = none ∧
      rv32I.decode vecBa = Except.error RVError.keyError :=
  ⟨rfl, (decode_missing_key_raises_keyError rv32I vecBa rfl).1⟩

/-- Claim C2, counterexample to the claim as stated: a decoder built with only
the base integer table, fed a word with the vector opcode 1010111, fails with
KeyError and not with UnsupportedOpcodeError. -/
theorem decode_unsupported_counterexample :
    rv32I.decode vecBa = Except.error RVError.keyError ∧
      rv32I.decode vecBa ≠ Except.error RVError.unsupportedOpcodeError := by
  have h1 : rv32I.decode vecBa = Except.error RVError.keyError := rfl
  refine ⟨h1, ?_⟩
  rw [h1]
  intro hco
  injection hco with h2
  exact RVError.noConfusion h2

/-- Claim C6, amended: when the input text does not parse as a hexadecimal
numeral (a character that is neither a hexadecimal digit nor part of a leading
0x or 0X base marker), decodeHex fails with the Python builtin ValueError
raised by int, and in particular not with the MalformedHexError the
specification names, which the code never defines nor raises. -/
theorem decodeHex_nonhex_raises_valueError (rv : RV32) (s : String)
    (h : pyIntHex16? s = none) :
    rv.decodeHex s = Except.error RVError.valueError ∧
      rv.decodeHex s ≠ Except.error RVError.malformedHexError := by
  have h1 : rv.decodeHex s = Except.error RVError.valueError := by
    unfold RV32.decodeHex
    rw [h]
  refine ⟨h1, ?_⟩
  rw [h1]
  intro hco
  injection hco with h2
  exact RVError.noConfusion h2

theorem decodeHex_nonhex_witness :
    pyIntHex16? "zz" = none ∧ rv32I.decodeHex "zz" = Except.error RVError.valueError :=
  ⟨rfl, (decodeHex_nonhex_raises_valueError rv32I "zz" rfl).1⟩

/-- Claim C6, counterexample to the claim as stated: on the non-hexadecimal
input zz, decodeHex fails with ValueError and not with MalformedHexError. -/
theorem decodeHex_malformedHex_counterexample :
    rv32I.decodeHex "zz" = Except.error RVError.valueError ∧
      rv32I.decodeHex "zz" ≠ Except.error RVError.malformedHexError := by
  have h1 : rv32I.decodeHex "zz" = Except.error RVError.valueError := rfl
  refine ⟨h1, ?_⟩
  rw [h1]
  intro hco
  injection hco with h2
  exact RVError.noConfusion h2

/-- Claim C8: every Instruction produced by the decode pipeline has its size
field equal to the length of its binary field, given the spec contract on the
extension decode functions. -/
theorem decode_size_invariant (rv : RV32) (ba : List Bool) (inst : RVInstruction)
    (hc : TableContract rv.instructionTable)
    (hok : rv.decode ba = Except.ok inst) :
    inst.size = inst.binary.length := by
  unfold RV32.decode at hok
  cases hl : tableLookup rv.instructionTable (getOpcode ba) with
  | none => rw [hl] at hok; simp at hok
  | some f =>
    rw [hl] at hok
    simp only [Except.ok.injEq] at hok
    obtain ⟨h1, h2⟩ := hc _ _ (tableLookup_mem hl) ba
    rw [← hok, h1, h2]

theorem decode_size_invariant_witness :
    TableContract rvW.instructionTable ∧ instW.size = instW.binary.length :=
  ⟨rvW_contract, decode_size_invariant rvW ba16W instW rvW_contract rfl⟩

lemma xsmall_ne {s : String} {d : Char} {ds : List Char} (t : String) (d2 : Char)
    (hsd : s.data = 'x' :: d :: ds) (ht : t.data = ['x', d2])
    (h32 : 32 ≤ decDigitsVal (d :: ds)) (hval : decDigitsVal [d2] < 32) : s ≠ t := by
  intro heq
  rw [heq, ht] at hsd
  simp only [List.cons.injEq] at hsd
  obtain ⟨-, rfl, rfl⟩ := hsd
  omega

/-- Claim C5: every register id string that does not denote one of x0 to x31,
either because it does not start with the letter x (covering floating point
and vector ids such as f1 and v0), or because it is x followed by digits
denoting a number of 32 or more, is returned unchanged, without failing. -/
theorem get_print_name_identity_fallback (s : String)
    (h : (∃ c rest, s.data = c :: rest ∧ c ≠ 'x')
      ∨ (∃ rest, s.data = 'x' :: rest ∧ rest ≠ [] ∧ rest.all Char.isDigit = true
          ∧ 32 ≤ decDigitsVal rest)) :
    get_print_name s = some s := by
  unfold get_print_name
  rcases h with ⟨c, rest, hd, hc⟩ | ⟨rest, hd, hne, hdig, h32⟩
  · rw [hd]
    dsimp only
    rw [if_neg hc]
  · obtain ⟨d, ds, rfl⟩ : ∃ d dss, rest = d :: dss := by
      cases rest with
      | nil => exact absurd rfl hne
      | cons d dss => exact ⟨d, dss, rfl⟩
    rw [hd]
    dsimp only
    rw [if_pos rfl]
    have hdall : d.isDigit = true ∧ ds.all Char.isDigit = true := by
      simpa [List.all_cons] using hdig
    have hdm : d ≠ '-' := by
      intro hx
      rw [hx] at hdall
      exact absurd hdall.1 (by decide)
    have hdp : d ≠ '+' := by
      intro hx
      rw [hx] at hdall
      exact absurd hdall.1 (by decide)
    have hparse : pyIntDec? (String.mk (d :: ds)) = some ((decDigitsVal (d :: ds) : Int)) := by
      unfold pyIntDec?
      dsimp only
      rw [if_neg hdm, if_neg hdp, if_pos hdig]
    rw [hparse]
    dsimp only
    have e0 : s ≠ "x0" := xsmall_ne "x0" '0' hd rfl h32 (by decide)
    have e1 : s ≠ "x1" := xsmall_ne "x1" '1' hd rfl h32 (by decide)
    have e2 : s ≠ "x2" := xsmall_ne "x2" '2' hd rfl h32 (by decide)
    have e3 : s ≠ "x3" := xsmall_ne "x3" '3' hd rfl h32 (by decide)
    have e4 : s ≠ "x4" := xsmall_ne "x4" '4' hd rfl h32 (by decide)
    have e5 : s ≠ "x5" := xsmall_ne "x5" '5' hd rfl h32 (by decide)
    have e6 : s ≠ "x6" := xsmall_ne "x6" '6' hd rfl h32 (by decide)
    have e7 : s ≠ "x7" := xsmall_ne "x7" '7' hd rfl h32 (by decide)
    have e8 : s ≠ "x8" := xsmall_ne "x8" '8' hd rfl h32 (by decide)
    have e9 : s ≠ "x9" := xsmall_ne "x9" '9' hd rfl h32 (by decide)
    have r1 : ¬(10 ≤ ((decDigitsVal (d :: ds) : Int)) ∧ ((decDigitsVal (d :: ds) : Int)) ≤ 17) := by
      omega
    have r2 : ¬(12 ≤ ((decDigitsVal (d :: ds) : Int)) ∧ ((decDigitsVal (d :: ds) : Int)) ≤ 27) := by
      omega
    have r3 : ¬(28 ≤ ((decDigitsVal (d :: ds) : Int)) ∧ ((decDigitsVal (d :: ds) : Int)) ≤ 31) := by
      omega
    rw [if_neg e0, if_neg e1, if_neg e2, if_neg e3, if_neg e4, if_neg e5, if_neg e6,
      if_neg e7, if_neg e8, if_neg e9, if_neg r1, if_neg r2, if_neg r3]

theorem get_print_name_identity_fallback_witness :
    (("f1" : String).data = 'f' :: ['1'] ∧ ('f' : Char) ≠ 'x') ∧
      get_print_name "f1" = some "f1" :=
  ⟨⟨rfl, by decide⟩,
    get_print_name_identity_fallback "f1" (Or.inl ⟨'f', ['1'], rfl, by decide⟩)⟩

lemma natBits_zero : natBits 0 = [] := by
  unfold natBits
  rfl

lemma natBits_ne_zero (n : Nat) (h : n ≠ 0) :
    natBits n = natBits (n / 2) ++ [decide (n % 2 = 1)] := by
  rw [natBits]
  rw [dif_neg h]

lemma natBits_length_le (k : Nat) : ∀ n, n < 2 ^ k → (natBits n).length ≤ k := by
  induction k with
  | zero =>
    intro n h
    have h0 : n = 0 := by simpa using h
    subst h0
    simp [natBits_zero]
  | succ k ih =>
    intro n h
    by_cases h0 : n = 0
    · subst h0
      simp [natBits_zero]
    · rw [natBits_ne_zero n h0]
      have hlt : n / 2 < 2 ^ k := by
        rw [Nat.div_lt_iff_lt_mul (by norm_num : 0 < 2)]
        calc n < 2 ^ (k + 1) := h
          _ = 2 ^ k * 2 := by rw [pow_succ]
      have := ih (n / 2) hlt
      simp only [List.length_append, List.length_cons, List.length_nil]
      omega

lemma lastN_append_two {α : Type} (xs : List α) (a b : α) :
    lastN 2 (xs ++ [a, b]) = [a, b] := by
  unfold lastN
  rw [show (xs ++ [a, b]).length - 2 = xs.length by simp [List.length_append]]
  exact List.drop_left xs [a, b]

lemma rawBin_lastTwo_iff (n : Nat) :
    (lastN 2 (rawBin n) = [true, true]) ↔ n % 4 = 3 := by
  rcases Nat.lt_or_ge n 2 with h2 | h2
  · interval_cases n
    · decide
    · have h1 : rawBin 1 = [true] := by
        unfold rawBin
        rw [if_neg (by norm_num), natBits_ne_zero 1 (by norm_num), natBits_zero]
        rfl
      rw [h1]
      decide
  · have h0 : n ≠ 0 := by omega
    have h02 : n / 2 ≠ 0 := by
      intro hx
      have : n < 2 := by omega
      omega
    have hr : rawBin n =
        natBits (n / 2 / 2) ++ [decide (n / 2 % 2 = 1), decide (n % 2 = 1)] := by
      unfold rawBin
      rw [if_neg h0, natBits_ne_zero n h0, natBits_ne_zero (n / 2) h02, List.append_assoc]
      rfl
    rw [hr, lastN_append_two]
    constructor
    · intro hx
      simp only [List.cons.injEq, decide_eq_true_eq, and_true] at hx
      omega
    · intro hm
      have hA : n / 2 % 2 = 1 := by omega
      have hB : n % 2 = 1 := by omega
      simp [hA, hB]

lemma decodeHexWidth_eq_32_iff (n : Nat) : decodeHexWidth n = 32 ↔ n % 4 = 3 := by
  unfold decodeHexWidth
  by_cases hl : lastN 2 (rawBin n) = [true, true]
  · rw [if_neg (by simp [hl])]
    simp [(rawBin_lastTwo_iff n).mp hl]
  · rw [if_pos hl]
    have hm : ¬(n % 4 = 3) := fun hx => hl ((rawBin_lastTwo_iff n).mpr hx)
    simp [hm]

lemma zfillBits_length (w : Nat) (l : List Bool) (h : l.length ≤ w) :
    (zfillBits w l).length = w := by
  unfold zfillBits
  simp only [List.length_append, List.length_replicate]
  omega

lemma rawBin_length_le (k : Nat) (n : Nat) (h : n < 2 ^ k) (hk : 1 ≤ k) :
    (rawBin n).length ≤ k := by
  unfold rawBin
  by_cases h0 : n = 0
  · rw [if_pos h0]
    simpa using hk
  · rw [if_neg h0]
    exact natBits_length_le k n h

/-- Claim C1: decodeHex selects width 32 exactly when the last two bits of the
raw unpadded binary representation of the value are one one, that is when the
value is 3 modulo 4, and width 16 otherwise; the bit string is left padded
with zeros to that width and handed to decode; a compressed word then yields
an Instruction of size 16, given the spec contract on the decode functions. -/
theorem decodeHex_width_selection (rv : RV32) (hex : String) (n : Nat) (inst : RVInstruction)
    (hparse : pyIntHex16? hex = some n)
    (hn : n < 2 ^ 32)
    (hword : n % 4 = 3 ∨ n < 2 ^ 16)
    (hcontract : TableContract rv.instructionTable)
    (hok : rv.decodeHex hex = Except.ok inst) :
    (decodeHexWidth n = 32 ↔ n % 4 = 3)
    ∧ rv.decodeHex hex = rv.decode (zfillBits (decodeHexWidth n) (rawBin n))
    ∧ (zfillBits (decodeHexWidth n) (rawBin n)).length = decodeHexWidth n
    ∧ (n % 4 ≠ 3 → inst.size = 16) := by
  have hpipe : rv.decodeHex hex = rv.decode (zfillBits (decodeHexWidth n) (rawBin n)) := by
    unfold RV32.decodeHex
    rw [hparse]
  have hwidth := decodeHexWidth_eq_32_iff n
  have hlen : (zfillBits (decodeHexWidth n) (rawBin n)).length = decodeHexWidth n := by
    apply zfillBits_length
    by_cases hm : n % 4 = 3
    · rw [hwidth.mpr hm]
      exact rawBin_length_le 32 n hn (by norm_num)
    · have h16 : n < 2 ^ 16 := hword.resolve_left hm
      have hb : (rawBin n).length ≤ 16 := rawBin_length_le 16 n h16 (by norm_num)
      have hge : 16 ≤ decodeHexWidth n := by
        unfold decodeHexWidth
        split <;> norm_num
      omega
  refine ⟨hwidth, hpipe, hlen, ?_⟩
  intro hm
  have hw16 : decodeHexWidth n = 16 := by
    unfold decodeHexWidth
    split
    · rfl
    · next hcond => exact absurd ((rawBin_lastTwo_iff n).mp (not_not.mp hcond)) hm
  rw [hpipe] at hok
  unfold RV32.decode at hok
  cases hl : tableLookup rv.instructionTable
      (getOpcode (zfillBits (decodeHexWidth n) (rawBin n))) with
  | none =>
    rw [hl] at hok
    simp at hok
  | some f =>
    rw [hl] at hok
    simp only [Except.ok.injEq] at hok
    obtain ⟨h1, h2⟩ := hcontract _ _ (tableLookup_mem hl)
      (zfillBits (decodeHexWidth n) (rawBin n))
    rw [← hok, h1, hlen, hw16]

theorem decodeHex_width_selection_witness :
    pyIntHex16? "00" = some 0 ∧ (0 : Nat) < 2 ^ 32 ∧ (0 : Nat) < 2 ^ 16 ∧
      TableContract rvW.instructionTable ∧ rvW.decodeHex "00" = Except.ok instW ∧
      (decodeHexWidth 0 = 32 ↔ 0 % 4 = 3) ∧ instW.size = 16 := by
  have h := decodeHex_width_selection rvW "00" 0 instW rfl (by norm_num)
    (Or.inr (by norm_num)) rvW_contract rfl
  exact ⟨rfl, by norm_num, by norm_num, rvW_contract, rfl, h.1, h.2.2.2 (by norm_num)⟩

lemma string_data_append (a b : String) : (a ++ b).data = a.data ++ b.data := rfl

lemma head?_append_left {α : Type} (l1 l2 : List α) (h : l1 ≠ []) :
    (l1 ++ l2).head? = l1.head? := by
  cases l1 with
  | nil => exact absurd rfl h
  | cons a t => rfl

lemma getLast?_append_right {α : Type} (l1 l2 : List α) (h : l2 ≠ []) :
    (l1 ++ l2).getLast? = l2.getLast? := by
  induction l1 with
  | nil => rfl
  | cons a t ih =>
    have hne : t ++ l2 ≠ [] := by
      intro hx
      rw [List.append_eq_nil] at hx
      exact h hx.2
    obtain ⟨y, ys, hyy⟩ : ∃ y ys, t ++ l2 = y :: ys := by
      cases hq : t ++ l2 with
      | nil => exact absurd hq hne
      | cons y ys => exact ⟨y, ys, rfl⟩
    calc ((a :: t) ++ l2).getLast? = (a :: (t ++ l2)).getLast? := rfl
      _ = (t ++ l2).getLast? := by rw [hyy]; exact List.getLast?_cons_cons
      _ = l2.getLast? := ih

lemma dropWhile_space_eq_self (l : List Char) (h : l.head? ≠ some ' ') :
    l.dropWhile (fun c => c == ' ') = l := by
  cases l with
  | nil => rfl
  | cons a t =>
    have ha : a ≠ ' ' := by
      intro hx
      exact h (by rw [hx]; rfl)
    rw [List.dropWhile_cons]
    simp [ha]

lemma stripChars_eq_self (l : List Char) (h1 : l.head? ≠ some ' ')
    (h2 : l.getLast? ≠ some ' ') : stripChars l = l := by
  unfold stripChars
  rw [dropWhile_space_eq_self l h1]
  rw [dropWhile_space_eq_self l.reverse (by rwa [List.head?_reverse])]
  exact List.reverse_reverse l

lemma pyStrip_eq_self (s : String) (h1 : s.data.head? ≠ some ' ')
    (h2 : s.data.getLast? ≠ some ' ') : pyStrip s = s := by
  unfold pyStrip
  rw [stripChars_eq_self s.data h1 h2]

lemma stripChars_append_space (l : List Char) (hne : l ≠ [])
    (h1 : l.head? ≠ some ' ') (h2 : l.getLast? ≠ some ' ') :
    stripChars (l ++ [' ']) = l := by
  unfold stripChars
  have hh : (l ++ [' ']).head? ≠ some ' ' := by
    rw [head?_append_left l [' '] hne]
    exact h1
  rw [dropWhile_space_eq_self _ hh]
  rw [List.reverse_append]
  simp only [List.reverse_cons, List.reverse_nil, List.nil_append, List.singleton_append]
  rw [List.dropWhile_cons]
  rw [if_pos (by decide : ((' ' == ' ') = true))]
  rw [dropWhile_space_eq_self l.reverse (by rwa [List.head?_reverse])]
  exact List.reverse_reverse l

lemma strPrefix_facts (a b : String) (h : a.data ≠ [] ∧ a.data.head? ≠ some ' ') :
    (a ++ b).data ≠ [] ∧ (a ++ b).data.head? ≠ some ' ' := by
  constructor
  · rw [string_data_append]
    intro hx
    rw [List.append_eq_nil] at hx
    exact h.1 hx.1
  · rw [string_data_append, head?_append_left _ _ h.1]
    exact h.2

lemma strSuffix_getLast (a b : String) (h1 : b.data ≠ []) (h2 : b.data.getLast? ≠ some ' ') :
    (a ++ b).data.getLast? ≠ some ' ' := by
  rw [string_data_append, getLast?_append_right _ _ h1]
  exact h2

lemma pyStrip_offsetForm (nm cj base : String) (h1 : nm.data ≠ [])
    (h2 : nm.data.head? ≠ some ' ') :
    pyStrip (nm ++ " " ++ cj ++ "(" ++ base ++ ")") = nm ++ " " ++ cj ++ "(" ++ base ++ ")" := by
  apply pyStrip_eq_self
  · exact (strPrefix_facts _ ")" (strPrefix_facts _ base (strPrefix_facts _ "("
      (strPrefix_facts _ cj (strPrefix_facts nm " " ⟨h1, h2⟩))))).2
  · exact strSuffix_getLast _ ")" (by decide) (by decide)

lemma pyStrip_plainForm (nm cj : String) (h1 : nm.data ≠ [])
    (h2 : nm.data.head? ≠ some ' ') (h3 : cj.data ≠ [])
    (h4 : cj.data.getLast? ≠ some ' ') :
    pyStrip (nm ++ " " ++ cj) = nm ++ " " ++ cj := by
  apply pyStrip_eq_self
  · exact (strPrefix_facts _ cj (strPrefix_facts nm " " ⟨h1, h2⟩)).2
  · exact strSuffix_getLast _ cj h3 h4

lemma pyStrip_nameSpace (nm : String) (h1 : nm.data ≠ [])
    (h2 : nm.data.head? ≠ some ' ') (h3 : nm.data.getLast? ≠ some ' ') :
    pyStrip (nm ++ " " ++ commaJoin []) = nm := by
  have hd : (nm ++ " " ++ commaJoin []).data = nm.data ++ [' '] := by
    rw [string_data_append, string_data_append]
    show nm.data ++ [' '] ++ ([] : List Char) = nm.data ++ [' ']
    rw [List.append_nil]
  unfold pyStrip
  rw [hd, stripChars_append_space nm.data h1 h2 h3]

lemma commaJoin_data_ne_nil : ∀ (ps : List String),
    ps ≠ [] → (∀ p ∈ ps, p.data ≠ []) → (commaJoin ps).data ≠ [] := by
  intro ps
  induction ps with
  | nil => intro hne _; exact absurd rfl hne
  | cons x xs ih =>
    intro _ hp
    cases xs with
    | nil => exact hp x (by simp)
    | cons y rest =>
      show (x ++ "," ++ commaJoin (y :: rest)).data ≠ []
      rw [string_data_append]
      intro hx
      rw [List.append_eq_nil] at hx
      have := hx.1
      rw [string_data_append, List.append_eq_nil] at this
      exact absurd this.2 (by decide)

lemma commaJoin_getLast_ok : ∀ (ps : List String),
    (∀ p ∈ ps, p.data ≠ [] ∧ p.data.getLast? ≠ some ' ') → ps ≠ [] →
    (commaJoin ps).data.getLast? ≠ some ' ' := by
  intro ps
  induction ps with
  | nil => intro _ hne; exact absurd rfl hne
  | cons x xs ih =>
    intro hp _
    cases xs with
    | nil => exact (hp x (by simp)).2
    | cons y rest =>
      have hrec := ih (fun p hm => hp p (List.mem_cons_of_mem _ hm)) (by simp)
      have hnn : (commaJoin (y :: rest)).data ≠ [] :=
        commaJoin_data_ne_nil (y :: rest) (by simp)
          (fun p hm => (hp p (List.mem_cons_of_mem _ hm)).1)
      show (x ++ "," ++ commaJoin (y :: rest)).data.getLast? ≠ some ' '
      rw [string_data_append, getLast?_append_right _ _ hnn]
      exact hrec

lemma str_plain_eq (i : RVInstruction) (dest src : List String)
    (hd : i.dest_registers.mapM get_print_name = some dest)
    (hs : i.src_registers.mapM get_print_name = some src)
    (hmem : strSpecialNames.contains i.name = false) :
    i.str = some (pyStrip (i.name ++ " " ++
      commaJoin (dest ++ src ++ i.immediates.map (fun x => toString x) ++ i.mask))) := by
  unfold RVInstruction.str
  rw [hd]
  dsimp only
  rw [hs]
  dsimp only
  rw [if_neg (by simpa using hmem)]

lemma str_base_eq (i : RVInstruction) (dest : List String) (base : String)
    (srcTail : List String)
    (hd : i.dest_registers.mapM get_print_name = some dest)
    (hs : i.src_registers.mapM get_print_name = some (base :: srcTail))
    (hmem : strSpecialNames.contains i.name = true)
    (hsp : (["c.lwsp", "c.swsp"] : List String).contains i.name = false) :
    i.str = some (pyStrip (i.name ++ " " ++
      commaJoin (dest ++ srcTail ++ i.immediates.map (fun x => toString x) ++ i.mask)
      ++ "(" ++ base ++ ")")) := by
  unfold RVInstruction.str
  rw [hd]
  dsimp only
  rw [hs]
  dsimp only
  rw [if_pos (by simpa using hmem), if_neg (by simpa using hsp)]

lemma str_sp_eq (i : RVInstruction) (dest src : List String)
    (hd : i.dest_registers.mapM get_print_name = some dest)
    (hs : i.src_registers.mapM get_print_name = some src)
    (hmem : strSpecialNames.contains i.name = true)
    (hsp : (["c.lwsp", "c.swsp"] : List String).contains i.name = true) :
    i.str = some (pyStrip (i.name ++ " " ++
      commaJoin (dest ++ src ++ i.immediates.map (fun x => toString x) ++ i.mask)
      ++ "(" ++ "sp" ++ ")")) := by
  unfold RVInstruction.str
  rw [hd]
  dsimp only
  rw [hs]
  dsimp only
  rw [if_pos (by simpa using hmem), if_pos (by simpa using hsp)]

/-- Claim C10: every Instruction named jalr is rendered with the offset(base)
memory access layout, its first printed source register being the base, even
though jalr satisfies neither isLoad nor isStore. -/
theorem jalr_offset_layout (i : RVInstruction) (dest : List String) (base : String)
    (srcTail : List String)
    (hname : i.name = "jalr")
    (hd : i.dest_registers.mapM get_print_name = some dest)
    (hs : i.src_registers.mapM get_print_name = some (base :: srcTail)) :
    i.str = some (i.name ++ " " ++
      commaJoin (dest ++ srcTail ++ i.immediates.map (fun x => toString x) ++ i.mask)
      ++ "(" ++ base ++ ")")
    ∧ i.isLoad = false ∧ i.isStore = false := by
  have hmem : strSpecialNames.contains i.name = true := by
    rw [hname]
    decide
  have hsp : (["c.lwsp", "c.swsp"] : List String).contains i.name = false := by
    rw [hname]
    decide
  have hn1 : i.name.data ≠ [] := by
    rw [hname]
    decide
  have hn2 : i.name.data.head? ≠ some ' ' := by
    rw [hname]
    decide
  refine ⟨?_, ?_, ?_⟩
  · rw [str_base_eq i dest base srcTail hd hs hmem hsp,
      pyStrip_offsetForm i.name _ base hn1 hn2]
  · unfold RVInstruction.isLoad
    rw [hname]
    decide
  · unfold RVInstruction.isStore
    rw [hname]
    decide

/-- A jalr instruction with one destination, one source and one immediate. -/
def jalrW : RVInstruction :=
  { name := "jalr", dest_registers := ["x1"], src_registers := ["x5"], immediates := [0] }

theorem jalr_offset_layout_witness :
    jalrW.name = "jalr" ∧ jalrW.str = some "jalr ra,0(t0)" ∧
      jalrW.isLoad = false ∧ jalrW.isStore = false := by
  have h := jalr_offset_layout jalrW ["ra"] "t0" [] rfl rfl rfl
  refine ⟨rfl, ?_, h.2.1, h.2.2⟩
  rw [h.1]
  decide

/-- Claim C4, amended: loads and stores whose mnemonic is among lb, lh, lw,
lbu, lhu, sb, sh, sw, c.lw, c.sw use the offset(base) layout with the first
printed source register as base; c.lwsp and c.swsp use it with sp implied as
base; every other load or store mnemonic (ld, lwu, sd and the compressed
floating, double and quad forms) falls through to the plain comma joined
layout. -/
theorem memAccess_layout_rendering (i : RVInstruction) (dest src : List String)
    (hd : i.dest_registers.mapM get_print_name = some dest)
    (hs : i.src_registers.mapM get_print_name = some src)
    (hn1 : i.name.data ≠ [])
    (hn2 : i.name.data.head? ≠ some ' ')
    (hp : ∀ p ∈ dest ++ src ++ i.immediates.map (fun x => toString x) ++ i.mask,
        p.data ≠ [] ∧ p.data.getLast? ≠ some ' ') :
    ((["lb", "lh", "lw", "lbu", "lhu", "sb", "sh", "sw", "c.lw", "c.sw"] :
        List String).contains i.name = true →
      ∀ base srcTail, src = base :: srcTail →
        i.str = some (i.name ++ " " ++
          commaJoin (dest ++ srcTail ++ i.immediates.map (fun x => toString x) ++ i.mask)
          ++ "(" ++ base ++ ")"))
    ∧ ((["c.lwsp", "c.swsp"] : List String).contains i.name = true →
        i.str = some (i.name ++ " " ++
          commaJoin (dest ++ src ++ i.immediates.map (fun x => toString x) ++ i.mask)
          ++ "(" ++ "sp" ++ ")"))
    ∧ (i.isMemAccess = true → strSpecialNames.contains i.name = false →
        dest ++ src ++ i.immediates.map (fun x => toString x) ++ i.mask ≠ [] →
        i.str = some (i.name ++ " " ++
          commaJoin (dest ++ src ++ i.immediates.map (fun x => toString x) ++ i.mask))) := by
  refine ⟨?_, ?_, ?_⟩
  · intro hbase base srcTail hsrc
    subst hsrc
    have hnames : i.name = "lb" ∨ i.name = "lh" ∨ i.name = "lw" ∨ i.name = "lbu" ∨
        i.name = "lhu" ∨ i.name = "sb" ∨ i.name = "sh" ∨ i.name = "sw" ∨
        i.name = "c.lw" ∨ i.name = "c.sw" := by simpa using hbase
    have hmem : strSpecialNames.contains i.name = true := by
      rcases hnames with h | h | h | h | h | h | h | h | h | h <;> rw [h] <;> decide
    have hsp : (["c.lwsp", "c.swsp"] : List String).contains i.name = false := by
      rcases hnames with h | h | h | h | h | h | h | h | h | h <;> rw [h] <;> decide
    rw [str_base_eq i dest base srcTail hd hs hmem hsp,
      pyStrip_offsetForm i.name _ base hn1 hn2]
  · intro hsplist
    have hnames : i.name = "c.lwsp" ∨ i.name = "c.swsp" := by simpa using hsplist
    have hmem : strSpecialNames.contains i.name = true := by
      rcases hnames with h | h <;> rw [h] <;> decide
    rw [str_sp_eq i dest src hd hs hmem hsplist,
      pyStrip_offsetForm i.name _ "sp" hn1 hn2]
  · intro _ hnot hpe
    rw [str_plain_eq i dest src hd hs hnot,
      pyStrip_plainForm i.name _ hn1 hn2
        (commaJoin_data_ne_nil _ hpe (fun p hm => (hp p hm).1))
        (commaJoin_getLast_ok _ hp hpe)]

/-- Claim C4, counterexample to the claim as stated: ld is a load mnemonic by
isLoad, yet it is rendered with the plain comma joined layout, not with the
offset(base) layout the claim asserts for every load and store. -/
theorem ld_plain_layout_counterexample :
    ({ name := "ld", dest_registers := ["x8"], src_registers := ["x2"],
        immediates := [8] } : RVInstruction).isLoad = true ∧
      RVInstruction.str
        { name := "ld", dest_registers := ["x8"], src_registers := ["x2"],
          immediates := [8] } = some "ld s0,sp,8" ∧
      RVInstruction.str
        { name := "ld", dest_registers := ["x8"], src_registers := ["x2"],
          immediates := [8] } ≠ some "ld s0,8(sp)" := by
  exact ⟨by decide, by decide, by decide⟩

/-- A lw instruction with one destination, one source and one immediate. -/
def lwW : RVInstruction :=
  { name := "lw", dest_registers := ["x15"], src_registers := ["x2"], immediates := [12] }

theorem memAccess_layout_rendering_witness :
    (["lb", "lh", "lw", "lbu", "lhu", "sb", "sh", "sw", "c.lw", "c.sw"] :
        List String).contains lwW.name = true ∧
      lwW.str = some "lw a5,12(sp)" := by
  have h := memAccess_layout_rendering lwW ["a5"] ["sp"] rfl rfl (by decide) (by decide)
    (by decide)
  refine ⟨by decide, ?_⟩
  rw [h.1 (by decide) "sp" [] rfl]
  decide

/-- Claim C9, amended: an Instruction outside the special offset(base) name
list renders as the mnemonic, one space and the comma joined parameters in
destination, source, immediate, mask order with registers under their ABI
names, except that the result is stripped of surrounding whitespace, so with
an empty parameter list the rendering is the bare mnemonic. -/
theorem plain_layout_rendering (i : RVInstruction) (dest src : List String)
    (hd : i.dest_registers.mapM get_print_name = some dest)
    (hs : i.src_registers.mapM get_print_name = some src)
    (hmem : strSpecialNames.contains i.name = false)
    (hn1 : i.name.data ≠ [])
    (hn2 : i.name.data.head? ≠ some ' ')
    (hn3 : i.name.data.getLast? ≠ some ' ')
    (hp : ∀ p ∈ dest ++ src ++ i.immediates.map (fun x => toString x) ++ i.mask,
        p.data ≠ [] ∧ p.data.getLast? ≠ some ' ') :
    (dest ++ src ++ i.immediates.map (fun x => toString x) ++ i.mask ≠ [] →
      i.str = some (i.name ++ " " ++
        commaJoin (dest ++ src ++ i.immediates.map (fun x => toString x) ++ i.mask)))
    ∧ (dest ++ src ++ i.immediates.map (fun x => toString x) ++ i.mask = [] →
      i.str = some i.name) := by
  constructor
  · intro hpe
    rw [str_plain_eq i dest src hd hs hmem,
      pyStrip_plainForm i.name _ hn1 hn2
        (commaJoin_data_ne_nil _ hpe (fun p hm => (hp p hm).1))
        (commaJoin_getLast_ok _ hp hpe)]
  · intro hpe
    rw [str_plain_eq i dest src hd hs hmem, hpe, pyStrip_nameSpace i.name hn1 hn2 hn3]

/-- Claim C9, counterexample to the claim as stated: an instruction with an
empty parameter list renders as the bare mnemonic, not as the mnemonic
followed by a single space that the claimed layout prescribes. -/
theorem plain_layout_empty_counterexample :
    RVInstruction.str { name := "ecall" } = some "ecall" ∧
      RVInstruction.str { name := "ecall" } ≠ some "ecall " := by
  exact ⟨by decide, by decide⟩

/-- An add instruction with one destination and two sources. -/
def addW : RVInstruction :=
  { name := "add", dest_registers := ["x3"], src_registers := ["x1", "x2"] }

theorem plain_layout_rendering_witness :
    strSpecialNames.contains addW.name = false ∧ addW.str = some "add gp,ra,sp" := by
  have h := plain_layout_rendering addW ["gp"] ["ra", "sp"] rfl rfl (by decide)
    (by decide) (by decide) (by decide) (by decide)
  refine ⟨by decide, ?_⟩
  rw [h.1 (by decide)]
  decide
